import Mathlib

/-!
Verification of the notePlayer library (src/notePlayer.js) against its
natural-language specification.

The JavaScript source is shallowly embedded:
* numbers are modelled as real numbers (`ℝ`); `Math.pow(2, 1/12)` becomes
  `Real.rpow`;
* `undefined` function arguments become `Option.none`;
* the catch-and-log-and-return-null failure style becomes `Option`:
  `none` is the null sentinel;
* `_.random(0.5, 3, true)` (the random default duration chosen in the
  constructor) is modelled by threading an explicit `rand : ℝ` argument
  through the factory functions;
* the WebAudio `audioContext` and `destinationNode` objects are modelled as
  abstract handles (`AC`, `DN` below); `audioContext.destination` becomes
  `destOf`.
-/

set_option maxHeartbeats 1600000

/-- Abstract handle for a WebAudio audio context. -/
abbrev AC : Type := ℕ

/-- Abstract handle for a WebAudio destination node. -/
abbrev DN : Type := ℕ

/-- Models `audioContext.destination` for a given context handle. -/
def destOf (ac : AC) : DN := ac

/-- Models `new (window.AudioContext || window.webkitAudioContext)()`, the
context lazily created by the constructor when none was supplied. -/
def freshAudioContext : AC := 0

/-- One entry of the table produced by `notePlayer.getNotesInfo`:
`{ keynb, freq, name }` in the source. -/
structure NoteRecord where
  keynb : ℕ
  freq : ℝ
  name : String

/-- A `notePlayer` instance: the properties assigned by the constructor
`function notePlayer(obj)` in the source. -/
structure NotePlayer where
  pianoKeyNb : ℕ
  frequency : ℝ
  octave : String
  name : String
  duration : ℝ
  volume : ℝ
  verbose : Bool
  attack : ℝ
  release : ℝ
  audioContext : AC
  destinationNode : DN

/-- `DICT_KEYS` from `getNotesInfo`: the twelve pitch classes, starting at A. -/
def DICT_KEYS : List String :=
  ["A", "A#", "B", "C", "C#", "D", "D#", "E", "F", "F#", "G", "G#"]

/-- `DICT_OCTAVES` from `getNotesInfo`. -/
def DICT_OCTAVES : List ℕ := [0, 1, 2, 3, 4, 5, 6, 7, 8]

/-- `Math.pow(2, 1/12)`: the equal-temperament semitone step. -/
noncomputable def semitone : ℝ := (2 : ℝ) ^ ((1 : ℝ) / 12)

/-- `FREQ = 25.95654359874657`, the starting frequency (one semitone below
A0) in `getNotesInfo`. -/
noncomputable def FREQ0 : ℝ := 25.95654359874657

/-- The (pitch class, octave) pairs iterated by the two nested `_.map`
calls of `getNotesInfo` (outer loop over `DICT_OCTAVES`, inner loop over
`DICT_KEYS`), already flattened into iteration order. -/
def notePairs : List (String × ℕ) :=
  (DICT_OCTAVES.map (fun v => DICT_KEYS.map (fun v2 => (v2, v)))).flatten

/-- The record-producing loop body of `getNotesInfo`: the running state
`KEYNB`/`FREQ` is incremented (`KEYNB++`, `FREQ = FREQ * Math.pow(2,1/12)`)
and the record `{ keynb: KEYNB, freq: FREQ, name: v2 + v }` is emitted, for
each (pitch class, octave) pair in iteration order. -/
noncomputable def genFrom : ℕ → ℝ → List (String × ℕ) → List NoteRecord
  | _, _, [] => []
  | keynb, freq, p :: rest =>
    { keynb := keynb + 1, freq := freq * semitone, name := p.1 ++ toString p.2 } ::
      genFrom (keynb + 1) (freq * semitone) rest

/-- lodash `_.dropRightWhile(array, fn)` where `fn` receives the element and
its index in the array: drops elements from the end while the predicate
holds. -/
def dropRightWhileIdx {α : Type} (l : List α) (p : α → ℕ → Bool) : List α :=
  ((l.enum.reverse.dropWhile (fun ie => p ie.2 ie.1)).reverse).map Prod.snd

/-- `notePlayer.getNotesInfo`: generate the 9 × 12 = 108 records and drop
from the right while the index is ≥ 88 (keeping the first 88). -/
noncomputable def getNotesInfo : List NoteRecord :=
  dropRightWhileIdx (genFrom 0 FREQ0 notePairs) (fun _ i => decide (88 ≤ i))

/-- The table entry at position `i` (0-based); entry `i` carries key number
`i + 1`. -/
noncomputable def noteAt (i : ℕ) : NoteRecord := getNotesInfo.getD i ⟨0, 0, ""⟩

/-- The tail of the note table (entries 1..87). -/
noncomputable def tableTail : List NoteRecord := getNotesInfo.tail

lemma table_len : getNotesInfo.length = 88 := rfl

lemma table_cons : getNotesInfo = noteAt 0 :: tableTail := rfl

lemma table_take : getNotesInfo = (genFrom 0 FREQ0 notePairs).take 88 := rfl

/-- C1: `getNotesInfo()` returns exactly 88 records whose `keynb` fields are
exactly the integers 1..88 in ascending order with no gaps or duplicates
(the key-number list is literally `[1, 2, ..., 88]`). -/
theorem C1_keyNumbers :
    getNotesInfo.length = 88 ∧
      getNotesInfo.map (fun e => e.keynb) = List.range' 1 88 :=
  ⟨rfl, rfl⟩

lemma semitone_pos : 0 < semitone :=
  Real.rpow_pos_of_pos (by norm_num) _

lemma semitone_pow_twelve : semitone ^ 12 = 2 := by
  have h : semitone ^ (12 : ℕ) = (2 : ℝ) ^ (((1 : ℝ) / 12) * (12 : ℕ)) := by
    rw [Real.rpow_mul (by norm_num : (0:ℝ) ≤ 2), Real.rpow_natCast]
    rfl
  rw [h]
  norm_num

lemma semitone_lb : (1.059462 : ℝ) < semitone := by
  apply lt_of_pow_lt_pow_left₀ 12 (le_of_lt semitone_pos)
  rw [semitone_pow_twelve]
  norm_num

lemma semitone_ub : semitone < (1.059465 : ℝ) := by
  apply lt_of_pow_lt_pow_left₀ 12 (by norm_num : (0:ℝ) ≤ 1.059465)
  rw [semitone_pow_twelve]
  norm_num

lemma semitone_gt_one : 1 < semitone := by
  have := semitone_lb; linarith

lemma FREQ0_pos : 0 < FREQ0 := by unfold FREQ0; norm_num

lemma genFrom_map_freq :
    ∀ (ps : List (String × ℕ)) (kb : ℕ) (f : ℝ),
      (genFrom kb f ps).map (fun e => e.freq) =
        (List.range ps.length).map (fun i => f * semitone ^ (i + 1)) := by
  intro ps
  induction ps with
  | nil => intro kb f; rfl
  | cons p rest ih =>
    intro kb f
    simp only [genFrom, List.map_cons, List.length_cons, List.range_succ_eq_map,
      List.map_map, ih]
    congr 1
    · norm_num
    · apply List.map_congr_left
      intro i _
      simp only [Function.comp_apply, Nat.succ_eq_add_one]
      ring

lemma notePairs_len : notePairs.length = 108 := rfl

lemma freq_map :
    getNotesInfo.map (fun e => e.freq) =
      (List.range 88).map (fun i => FREQ0 * semitone ^ (i + 1)) := by
  rw [table_take, List.map_take, genFrom_map_freq, notePairs_len,
    ← List.map_take, List.take_range]
  norm_num

lemma noteAt_def (i : ℕ) (hl : i < getNotesInfo.length) :
    noteAt i = getNotesInfo[i] :=
  List.getD_eq_getElem _ _ hl

lemma noteAt_freq (i : ℕ) (h : i < 88) :
    (noteAt i).freq = FREQ0 * semitone ^ (i + 1) := by
  have hl : i < getNotesInfo.length := by rw [table_len]; exact h
  have hm : i < (getNotesInfo.map (fun e => e.freq)).length := by simpa using hl
  have h2 : (getNotesInfo.map (fun e => e.freq))[i] =
      FREQ0 * semitone ^ (i + 1) := by
    simp only [freq_map, List.getElem_map, List.getElem_range]
  simp only [List.getElem_map] at h2
  rw [noteAt_def i hl]
  exact h2

lemma keynb_map : getNotesInfo.map (fun e => e.keynb) = List.range' 1 88 := rfl

lemma noteAt_keynb (i : ℕ) (h : i < 88) : (noteAt i).keynb = i + 1 := by
  have hl : i < getNotesInfo.length := by rw [table_len]; exact h
  have hm : i < (getNotesInfo.map (fun e => e.keynb)).length := by simpa using hl
  have h2 : (getNotesInfo.map (fun e => e.keynb))[i] = i + 1 := by
    simp only [keynb_map, List.getElem_range']
    omega
  simp only [List.getElem_map] at h2
  rw [noteAt_def i hl]
  exact h2

lemma mem_table {e : NoteRecord} (he : e ∈ getNotesInfo) :
    ∃ i, i < 88 ∧ e = noteAt i := by
  rcases List.mem_iff_getElem.mp he with ⟨i, hi, hei⟩
  have h88 : i < 88 := by rw [table_len] at hi; exact hi
  refine ⟨i, h88, ?_⟩
  rw [noteAt_def i hi]
  exact hei.symm

lemma noteAt_mem (i : ℕ) (h : i < 88) : noteAt i ∈ getNotesInfo := by
  have hl : i < getNotesInfo.length := by rw [table_len]; exact h
  rw [noteAt_def i hl]
  exact List.getElem_mem _

lemma semitone_pow_49 : semitone ^ 49 = 16 * semitone := by
  have h : semitone ^ 49 = (semitone ^ 12) ^ 4 * semitone ^ 1 := by
    rw [← pow_mul, ← pow_add]
  rw [h, semitone_pow_twelve, pow_one]
  norm_num

lemma semitone_pow_88 : semitone ^ 88 = 128 * semitone ^ 4 := by
  have h : semitone ^ 88 = (semitone ^ 12) ^ 7 * semitone ^ 4 := by
    rw [← pow_mul, ← pow_add]
  rw [h, semitone_pow_twelve]
  norm_num

lemma semitone_pow_48 : semitone ^ 48 = 16 := by
  have h : semitone ^ 48 = (semitone ^ 12) ^ 4 := by rw [← pow_mul]
  rw [h, semitone_pow_twelve]
  norm_num

lemma fA0_bounds : 27.4999 ≤ (noteAt 0).freq ∧ (noteAt 0).freq ≤ 27.5001 := by
  rw [noteAt_freq 0 (by norm_num), pow_one]
  unfold FREQ0
  constructor <;> nlinarith [semitone_lb, semitone_ub]

lemma fA4_bounds : 439.999 ≤ (noteAt 48).freq ∧ (noteAt 48).freq ≤ 440.001 := by
  rw [noteAt_freq 48 (by norm_num)]
  rw [show (48:ℕ) + 1 = 49 from rfl, semitone_pow_49]
  unfold FREQ0
  constructor <;> nlinarith [semitone_lb, semitone_ub]

lemma fC8_bounds : 4185 ≤ (noteAt 87).freq ∧ (noteAt 87).freq ≤ 4187 := by
  rw [noteAt_freq 87 (by norm_num)]
  rw [show (87:ℕ) + 1 = 88 from rfl, semitone_pow_88]
  have h4l : (1.059462:ℝ) ^ 4 ≤ semitone ^ 4 :=
    pow_le_pow_left₀ (by norm_num) (le_of_lt semitone_lb) 4
  have h4u : semitone ^ 4 ≤ (1.059465:ℝ) ^ 4 :=
    pow_le_pow_left₀ (le_of_lt semitone_pos) (le_of_lt semitone_ub) 4
  unfold FREQ0
  constructor <;> nlinarith [h4l, h4u]

lemma noteAt_freq_mono {i j : ℕ} (hij : i ≤ j) (hj : j < 88) :
    (noteAt i).freq ≤ (noteAt j).freq := by
  rw [noteAt_freq i (by omega), noteAt_freq j hj]
  exact mul_le_mul_of_nonneg_left
    (pow_le_pow_right₀ (le_of_lt semitone_gt_one) (by omega)) (le_of_lt FREQ0_pos)

lemma noteAt_freq_pos (i : ℕ) (h : i < 88) : 0 < (noteAt i).freq := by
  rw [noteAt_freq i h]
  exact mul_pos FREQ0_pos (pow_pos semitone_pos _)

/-- C2: in the table the frequencies are strictly increasing, and every
consecutive ratio `freq[i+1] / freq[i]` equals `2^(1/12)` exactly in the
real-number semantics, hence within a relative tolerance of `1e-9`. -/
theorem C2_consecutiveRatios (i : ℕ) (h : i + 1 < 88) :
    (noteAt i).freq < (noteAt (i + 1)).freq ∧
      |(noteAt (i + 1)).freq / (noteAt i).freq - (2 : ℝ) ^ ((1 : ℝ) / 12)| ≤
        1e-9 * ((2 : ℝ) ^ ((1 : ℝ) / 12)) := by
  have hi : i < 88 := by omega
  have hsem : (2 : ℝ) ^ ((1 : ℝ) / 12) = semitone := rfl
  rw [noteAt_freq i hi, noteAt_freq (i + 1) h, hsem]
  constructor
  · apply mul_lt_mul_of_pos_left _ FREQ0_pos
    exact pow_lt_pow_right₀ semitone_gt_one (by omega)
  · have hne : FREQ0 * semitone ^ (i + 1) ≠ 0 :=
      ne_of_gt (mul_pos FREQ0_pos (pow_pos semitone_pos _))
    have hq : FREQ0 * semitone ^ (i + 1 + 1) / (FREQ0 * semitone ^ (i + 1)) =
        semitone := by
      rw [pow_succ, ← mul_assoc]
      exact mul_div_cancel_left₀ semitone hne
    rw [hq, sub_self, abs_zero]
    have := semitone_pos
    nlinarith

/-- Witness for C2 at the first consecutive pair. -/
theorem C2_consecutiveRatios_witness :
    (noteAt 0).freq < (noteAt 1).freq ∧
      |(noteAt 1).freq / (noteAt 0).freq - (2 : ℝ) ^ ((1 : ℝ) / 12)| ≤
        1e-9 * ((2 : ℝ) ^ ((1 : ℝ) / 12)) :=
  C2_consecutiveRatios 0 (by decide)

/-- C3 counterexample: the table record with key number 88 (position 87) is
named "C7" in the code, not "C8" as the claim states. -/
theorem C3_counterexample :
    (noteAt 87).keynb = 88 ∧ (noteAt 87).name = "C7" ∧
      ¬ (noteAt 87).name = "C8" :=
  ⟨rfl, rfl, by decide⟩

/-- C3 (amended): key 1 is "A0" with frequency within 0.01 of 27.5 Hz, key
49 is "A4" with frequency within 0.01 of 440 Hz, and key 88 has frequency
within 1.0 of 4186.0 Hz but is named "C7" (the generator labels the pitch
classes C..G# one octave lower than standard notation). -/
theorem C3_anchorNotes :
    ((noteAt 0).keynb = 1 ∧ (noteAt 0).name = "A0" ∧
      |(noteAt 0).freq - 27.5| ≤ 0.01) ∧
    ((noteAt 48).keynb = 49 ∧ (noteAt 48).name = "A4" ∧
      |(noteAt 48).freq - 440| ≤ 0.01) ∧
    ((noteAt 87).keynb = 88 ∧ (noteAt 87).name = "C7" ∧
      |(noteAt 87).freq - 4186.0| ≤ 1.0) := by
  refine ⟨⟨rfl, rfl, ?_⟩, ⟨rfl, rfl, ?_⟩, ⟨rfl, rfl, ?_⟩⟩
  · have h := fA0_bounds
    rw [abs_le]; constructor <;> nlinarith [h.1, h.2]
  · have h := fA4_bounds
    rw [abs_le]; constructor <;> nlinarith [h.1, h.2]
  · have h := fC8_bounds
    rw [abs_le]; constructor <;> nlinarith [h.1, h.2]

/-- JS `s.slice(-1)` (also `s.substr(-1,1)`): the last character as a
one-character string, or the empty string when `s` is empty. -/
def jsSliceLast (s : String) : String :=
  match s.toList.getLast? with
  | none => ""
  | some c => String.singleton c

/-- JS `s.slice(0,2)`: the first (up to) two characters. -/
def jsSliceFirst2 (s : String) : String := s.take 2

/-- JS `parseInt` applied to a string of length ≤ 1 (the only use in the
source is on `noteName.slice(-1)`): a digit character parses to its value,
anything else gives `NaN`, modelled as `none`. -/
def parseInt1 (s : String) : Option ℤ :=
  match s.toList with
  | [c] => if c.isDigit then some ((c.toNat : ℤ) - 48) else none
  | _ => none

/-- The test `OCTAVE_INPUT < 1 || OCTAVE_INPUT > 8` from `buildFromName`
under JS semantics: comparisons against `NaN` (modelled `none`) are false,
so `NaN` does NOT trigger the invalid-octave branch. -/
def octaveInvalid : Option ℤ → Bool
  | none => false
  | some o => decide (o < 1) || decide (8 < o)

/-- `DICT_TRANSLATIONS` from `buildFromName`: flat notation to its
enharmonic sharp/natural equivalent. -/
def DICT_TRANSLATIONS : List (String × String) :=
  [("Cb", "B"), ("Db", "C#"), ("Eb", "D#"), ("Fb", "E"),
   ("Gb", "F#"), ("Ab", "G#"), ("Bb", "A#")]

/-- `function notePlayer(obj)`: copies `keynb`/`freq`/`name` from the given
record, derives `octave` as `obj.name.substr(-1,1)`, draws the random
default duration (modelled by the explicit `rand` argument), sets the
remaining defaults, and attaches the supplied or a freshly created audio
context, routing output to that context's destination. -/
noncomputable def notePlayerCtor (obj : NoteRecord) (audioContext : Option AC)
    (rand : ℝ) : NotePlayer :=
  let ac := audioContext.getD freshAudioContext
  { pianoKeyNb := obj.keynb
    frequency := obj.freq
    octave := jsSliceLast obj.name
    name := obj.name
    duration := rand
    volume := 1
    verbose := false
    attack := 0.3
    release := 0.1
    audioContext := ac
    destinationNode := destOf ac }

/-- `notePlayer.buildFromName(noteName, audioContext)`: parse the trailing
character as the octave, reject octaves outside [1,8], rewrite a leading
flat via `DICT_TRANSLATIONS` (appending the parsed octave, `"NaN"` when the
parse failed, exactly as JS string concatenation would), look the resulting
name up in the table and construct a player from the matched record;
`none` models the caught-and-logged error paths returning null. -/
noncomputable def buildFromName (noteName : String) (rand : ℝ)
    (audioContext : Option AC) : Option NotePlayer :=
  let OCTAVE_INPUT := parseInt1 (jsSliceLast noteName)
  if octaveInvalid OCTAVE_INPUT then none
  else
    let NOTE_INPUT := jsSliceFirst2 noteName
    let octaveStr := match OCTAVE_INPUT with
      | none => "NaN"
      | some o => toString o
    let noteName2 := match List.lookup NOTE_INPUT DICT_TRANSLATIONS with
      | some t => t ++ octaveStr
      | none => noteName
    match getNotesInfo.find? (fun e => e.name == noteName2) with
    | none => none
    | some n => some (notePlayerCtor n audioContext rand)

/-- `notePlayer.buildFromKeyNb(noteKeyNb, audioContext)`: find the table
entry with `e.keynb == noteKeyNb` and construct from it, `none` when no
entry matches. -/
noncomputable def buildFromKeyNb (noteKeyNb : ℤ) (rand : ℝ)
    (audioContext : Option AC) : Option NotePlayer :=
  match getNotesInfo.find? (fun e => (e.keynb : ℤ) == noteKeyNb) with
  | none => none
  | some n => some (notePlayerCtor n audioContext rand)

/-- The `reduce` callback of `buildFromFrequency`: keep whichever of
`prev`/`curr` has frequency closer to `noteFreq`; on ties `prev` (the
earlier entry) wins because the comparison is strict. -/
noncomputable def nearestStep (noteFreq : ℝ) (prev curr : NoteRecord) :
    NoteRecord :=
  if |curr.freq - noteFreq| < |prev.freq - noteFreq| then curr else prev

/-- `notePlayer.buildFromFrequency(noteFreq, audioContext)`: reject
frequencies outside `[list[0].freq, list[list.length-1].freq]`, find the
entry with minimal absolute frequency difference by `reduce` (seeded with
the first element), and delegate to `buildFromName` on its name. The `[]`
branch is unreachable (the table always has 88 entries). -/
noncomputable def buildFromFrequency (noteFreq : ℝ) (rand : ℝ)
    (audioContext : Option AC) : Option NotePlayer :=
  match getNotesInfo with
  | [] => none
  | b :: t =>
    if noteFreq < b.freq ∨ ((b :: t).getLast (List.cons_ne_nil b t)).freq < noteFreq
    then none
    else buildFromName ((t.foldl (nearestStep noteFreq) b).name) rand audioContext

/-- `setAudioContext(ac)`: `this.audioContext = (ac == void 0) ?
this.audioContext : ac` (loose equality, so both `undefined` and `null`
retain the current value; both are modelled by `none`). -/
def setAudioContext (np : NotePlayer) (ac : Option AC) : NotePlayer :=
  match ac with
  | none => np
  | some a => { np with audioContext := a }

/-- `setDestinationNode(dn)`: on a defined argument assigns it; on an
undefined argument the source evaluates `this.audiocontext.destination` —
a typo for `audioContext`, so it reads property `destination` of
`undefined` and throws a TypeError (modelled as `none`; the setters have no
try/catch, so the error propagates to the caller). -/
def setDestinationNode (np : NotePlayer) (dn : Option DN) : Option NotePlayer :=
  match dn with
  | none => none
  | some d => some { np with destinationNode := d }

/-- `setDuration(d)`: keep the current value when the argument is absent. -/
def setDuration (np : NotePlayer) (d : Option ℝ) : NotePlayer :=
  match d with
  | none => np
  | some x => { np with duration := x }

/-- `setVolume(v)`: keep the current value when the argument is absent. -/
def setVolume (np : NotePlayer) (v : Option ℝ) : NotePlayer :=
  match v with
  | none => np
  | some x => { np with volume := x }

/-- `setVerbose(v)`: `(v === void 0 || v === true) ? true : false`. -/
def setVerbose (np : NotePlayer) (v : Option Bool) : NotePlayer :=
  if v = none ∨ v = some true then { np with verbose := true }
  else { np with verbose := false }

/-- JS truncation toward zero, as used by the `%` remainder operator. -/
noncomputable def jsTrunc (x : ℝ) : ℤ := if 0 ≤ x then ⌊x⌋ else ⌈x⌉

/-- JS `x % 1`: the remainder has the sign of the dividend, i.e.
`x - trunc(x)`. -/
noncomputable def jsMod1 (x : ℝ) : ℝ := x - jsTrunc x

/-- `setAttack(n)`: `(n === void 0 || n % 1 === 0) ? this.attack : n` —
absent arguments AND whole-number arguments keep the current value. -/
noncomputable def setAttack (np : NotePlayer) (n : Option ℝ) : NotePlayer :=
  match n with
  | none => np
  | some x => if jsMod1 x = 0 then np else { np with attack := x }

/-- `setRelease(n)`: same whole-number guard as `setAttack`. -/
noncomputable def setRelease (np : NotePlayer) (n : Option ℝ) : NotePlayer :=
  match n with
  | none => np
  | some x => if jsMod1 x = 0 then np else { np with release := x }

/-- C6: for every name input whose trailing character parses to an integer
outside [1,8], `buildFromName` returns the null sentinel (the error is
caught and logged, not thrown to the caller). -/
theorem C6_invalidOctave (s : String) (r : ℝ) (c : Option AC) (d : ℤ)
    (hp : parseInt1 (jsSliceLast s) = some d) (hd : d < 1 ∨ 8 < d) :
    buildFromName s r c = none := by
  have hinv : octaveInvalid (parseInt1 (jsSliceLast s)) = true := by
    rw [hp]
    rcases hd with h | h
    · simp [octaveInvalid, h]
    · simp [octaveInvalid, h]
  unfold buildFromName
  simp [hinv]

/-- Witness for C6 at the claim's example "Z9" (trailing digit 9 > 8). -/
theorem C6_invalidOctave_witness : buildFromName "Z9" 0 none = none :=
  C6_invalidOctave "Z9" 0 none 9 (by decide) (by decide)

/-- C5 counterexample: for octave digit 8 the flat name "Bb8" does not give
a NotePlayer — it (and its sharp form "A#8") returns the null sentinel,
because no octave-8 name survives the 88-entry cut of the table. -/
theorem C5_counterexample :
    buildFromName "Bb8" 0 none = none ∧ buildFromName "A#8" 0 none = none :=
  ⟨rfl, rfl⟩

/-- C5 (amended): for every octave digit in [1,8], `buildFromName` on a
flat name returns exactly the same result as on its enharmonic
sharp/natural equivalent (Cb→B, Db→C#, Eb→D#, Fb→E, Gb→F#, Ab→G#, Bb→A#,
octave digit kept): the flat is rewritten before lookup. The shared result
is a non-null NotePlayer only when the rewritten name occurs in the table;
in particular "Bb3" resolves identically to "A#3", which is non-null. -/
theorem C5_flatNormalization (d : ℕ) (r : ℝ) (c : Option AC)
    (h1 : 1 ≤ d) (h8 : d ≤ 8) :
    buildFromName ("Cb" ++ toString d) r c = buildFromName ("B" ++ toString d) r c ∧
    buildFromName ("Db" ++ toString d) r c = buildFromName ("C#" ++ toString d) r c ∧
    buildFromName ("Eb" ++ toString d) r c = buildFromName ("D#" ++ toString d) r c ∧
    buildFromName ("Fb" ++ toString d) r c = buildFromName ("E" ++ toString d) r c ∧
    buildFromName ("Gb" ++ toString d) r c = buildFromName ("F#" ++ toString d) r c ∧
    buildFromName ("Ab" ++ toString d) r c = buildFromName ("G#" ++ toString d) r c ∧
    buildFromName ("Bb" ++ toString d) r c = buildFromName ("A#" ++ toString d) r c ∧
    (buildFromName "Bb3" r c = buildFromName "A#3" r c ∧
      (buildFromName "A#3" r c).isSome = true) := by
  interval_cases d <;> exact ⟨rfl, rfl, rfl, rfl, rfl, rfl, rfl, rfl, rfl⟩

/-- Witness for C5 at octave 3. -/
theorem C5_flatNormalization_witness :
    buildFromName "Bb3" 0 none = buildFromName "A#3" 0 none :=
  (C5_flatNormalization 3 0 none (by decide) (by decide)).2.2.2.2.2.2.2.1

/-- C7: `buildFromKeyNb` returns a player built from the matching table
record when the input equals some entry's key number (an integer in 1..88)
and the null sentinel otherwise; in particular key 49 yields name "A4" and
keys 0 and 89 yield the null sentinel. -/
theorem C7_buildFromKeyNb (k : ℤ) (r : ℝ) (c : Option AC) :
    (1 ≤ k → k ≤ 88 →
      ∃ e, e ∈ getNotesInfo ∧ (e.keynb : ℤ) = k ∧
        buildFromKeyNb k r c = some (notePlayerCtor e c r)) ∧
    (k < 1 ∨ 88 < k → buildFromKeyNb k r c = none) ∧
    (buildFromKeyNb 49 r c).map (fun p => p.name) = some "A4" ∧
    buildFromKeyNb 0 r c = none ∧ buildFromKeyNb 89 r c = none := by
  refine ⟨?_, ?_, rfl, rfl, rfl⟩
  · intro h1 h88
    have hi : k.toNat - 1 < 88 := by omega
    have hkey : ((noteAt (k.toNat - 1)).keynb : ℤ) = k := by
      rw [noteAt_keynb _ hi]; omega
    have hsome : (getNotesInfo.find? (fun e => (e.keynb : ℤ) == k)).isSome = true := by
      rw [List.find?_isSome]
      exact ⟨noteAt (k.toNat - 1), noteAt_mem _ hi, by simp [hkey]⟩
    cases hfind : getNotesInfo.find? (fun e => (e.keynb : ℤ) == k) with
    | none => rw [hfind] at hsome; simp at hsome
    | some e =>
      have hmem := List.mem_of_find?_eq_some hfind
      have hpe := List.find?_some hfind
      refine ⟨e, hmem, by simpa using hpe, ?_⟩
      simp [buildFromKeyNb, hfind]
  · intro hk
    have hnone : getNotesInfo.find? (fun e => (e.keynb : ℤ) == k) = none := by
      rw [List.find?_eq_none]
      intro e he
      rcases mem_table he with ⟨i, hi, rfl⟩
      rw [noteAt_keynb i hi]
      simp only [beq_iff_eq]
      omega
    simp [buildFromKeyNb, hnone]

/-- Witness for C7 at key number 49. -/
theorem C7_buildFromKeyNb_witness :
    ∃ e, e ∈ getNotesInfo ∧ (e.keynb : ℤ) = 49 ∧
      buildFromKeyNb 49 0 none = some (notePlayerCtor e none 0) :=
  (C7_buildFromKeyNb 49 0 none).1 (by decide) (by decide)

/-- C10 (amended): the first twelve table entries (key numbers 1..12, the
octave-0 notes) are reachable by key number — `buildFromKeyNb` succeeds —
but never by name: `buildFromName` on the very name stored in the table
rejects the octave digit 0. (The frequency path does not reach them either:
it delegates to the name path, see the counterexample.) -/
theorem C10_octaveZeroNotes (k : ℕ) (h1 : 1 ≤ k) (h12 : k ≤ 12) (r : ℝ)
    (c : Option AC) :
    (buildFromKeyNb (k : ℤ) r c).isSome = true ∧
      buildFromName (noteAt (k - 1)).name r c = none := by
  interval_cases k <;> exact ⟨rfl, rfl⟩

/-- Witness for C10 at key number 1 (note "A0"). -/
theorem C10_octaveZeroNotes_witness :
    (buildFromKeyNb ((1 : ℕ) : ℤ) 0 none).isSome = true ∧
      buildFromName (noteAt (1 - 1)).name 0 none = none :=
  C10_octaveZeroNotes 1 (by decide) (by decide) 0 none

/-- A concrete NotePlayer instance (an "A4" player) used as the test
subject for the setter claims. -/
def np0 : NotePlayer :=
  { pianoKeyNb := 49, frequency := 440, octave := "4", name := "A4",
    duration := 1, volume := 1, verbose := false, attack := 0.3,
    release := 0.1, audioContext := 0, destinationNode := 0 }

/-- C8 counterexample: `setDestinationNode` called with an absent argument
does NOT leave the instance unchanged — the source reads
`this.audiocontext.destination` (a typo for `audioContext`), which throws a
TypeError, modelled as `none`. -/
theorem C8_counterexample :
    setDestinationNode np0 none = none ∧
      setDestinationNode np0 none ≠ some np0 :=
  ⟨rfl, fun h => Option.noConfusion h⟩

/-- C8 (amended): `setDuration`, `setVolume`, `setAttack`, `setRelease` and
`setAudioContext` leave the instance unchanged when called with an absent
argument; `setVerbose` sets `verbose` to true on an absent or `true`
argument and to false otherwise; but `setDestinationNode` with an absent
argument throws (returns no instance) instead of being a no-op. -/
theorem C8_setterNoOps (np : NotePlayer) :
    setDuration np none = np ∧
    setVolume np none = np ∧
    setAttack np none = np ∧
    setRelease np none = np ∧
    setAudioContext np none = np ∧
    setVerbose np none = { np with verbose := true } ∧
    setVerbose np (some true) = { np with verbose := true } ∧
    setVerbose np (some false) = { np with verbose := false } ∧
    setDestinationNode np none = none :=
  ⟨rfl, rfl, rfl, rfl, rfl, rfl, rfl, rfl, rfl⟩

lemma jsMod1_eq_zero_iff (x : ℝ) : jsMod1 x = 0 ↔ ∃ m : ℤ, (m : ℝ) = x := by
  unfold jsMod1 jsTrunc
  by_cases h : 0 ≤ x
  · rw [if_pos h]
    constructor
    · intro hz; exact ⟨⌊x⌋, by linarith⟩
    · rintro ⟨m, rfl⟩; rw [Int.floor_intCast]; ring
  · rw [if_neg h]
    constructor
    · intro hz; exact ⟨⌈x⌉, by linarith⟩
    · rintro ⟨m, rfl⟩; rw [Int.ceil_intCast]; ring

/-- C9: for a defined numeric argument, `setAttack`/`setRelease` leave the
instance unchanged when the argument is a whole number (including 0 and
negatives) and update the field when it is fractional. -/
theorem C9_wholeNumberGuard (np : NotePlayer) (n : ℝ) :
    ((∃ m : ℤ, (m : ℝ) = n) →
      setAttack np (some n) = np ∧ setRelease np (some n) = np) ∧
    (¬ (∃ m : ℤ, (m : ℝ) = n) →
      setAttack np (some n) = { np with attack := n } ∧
        setRelease np (some n) = { np with release := n }) := by
  constructor
  · intro h
    have hz : jsMod1 n = 0 := (jsMod1_eq_zero_iff n).mpr h
    exact ⟨by simp [setAttack, hz], by simp [setRelease, hz]⟩
  · intro h
    have hz : ¬ jsMod1 n = 0 := fun hz => h ((jsMod1_eq_zero_iff n).mp hz)
    exact ⟨by simp [setAttack, hz], by simp [setRelease, hz]⟩

lemma not_int_eq_half : ¬ ∃ m : ℤ, (m : ℝ) = 1 / 2 := by
  rintro ⟨m, hm⟩
  have h2 : ((2 * m : ℤ) : ℝ) = 1 := by push_cast; linarith
  have h3 : (2 * m : ℤ) = 1 := by exact_mod_cast h2
  omega

lemma int_eq_two : ∃ m : ℤ, (m : ℝ) = 2 := ⟨2, by norm_num⟩

/-- Witness for C9: a whole number (2) is ignored, a fraction (1/2) is
stored. -/
theorem C9_wholeNumberGuard_witness :
    setAttack np0 (some 2) = np0 ∧
      setAttack np0 (some (1 / 2)) = { np0 with attack := 1 / 2 } :=
  ⟨((C9_wholeNumberGuard np0 2).1 int_eq_two).1,
   ((C9_wholeNumberGuard np0 (1 / 2)).2 not_int_eq_half).1⟩

lemma nearestStep_left_le (x : ℝ) (p c : NoteRecord) :
    |(nearestStep x p c).freq - x| ≤ |p.freq - x| := by
  unfold nearestStep
  by_cases h : |c.freq - x| < |p.freq - x|
  · rw [if_pos h]; exact le_of_lt h
  · rw [if_neg h]

lemma nearestStep_right_le (x : ℝ) (p c : NoteRecord) :
    |(nearestStep x p c).freq - x| ≤ |c.freq - x| := by
  unfold nearestStep
  by_cases h : |c.freq - x| < |p.freq - x|
  · rw [if_pos h]
  · rw [if_neg h]; exact le_of_not_lt h

lemma nearestStep_mem (x : ℝ) (p c : NoteRecord) :
    nearestStep x p c = p ∨ nearestStep x p c = c := by
  unfold nearestStep
  by_cases h : |c.freq - x| < |p.freq - x|
  · rw [if_pos h]; exact Or.inr rfl
  · rw [if_neg h]; exact Or.inl rfl

lemma foldl_nearest (x : ℝ) :
    ∀ (l : List NoteRecord) (b : NoteRecord),
      l.foldl (nearestStep x) b ∈ b :: l ∧
        ∀ c ∈ b :: l, |(l.foldl (nearestStep x) b).freq - x| ≤ |c.freq - x| := by
  intro l
  induction l with
  | nil =>
    intro b
    refine ⟨List.mem_cons_self b [], ?_⟩
    intro c hc
    rcases List.mem_cons.mp hc with h | h
    · subst h; exact le_refl _
    · exact absurd h (List.not_mem_nil c)
  | cons a l ih =>
    intro b
    rw [List.foldl_cons]
    rcases ih (nearestStep x b a) with ⟨hmem, hmin⟩
    constructor
    · rcases List.mem_cons.mp hmem with h | h
      · rcases nearestStep_mem x b a with hba | hba
        · rw [h, hba]; exact List.mem_cons_self _ _
        · rw [h, hba]
          exact List.mem_cons_of_mem _ (List.mem_cons_self _ _)
      · exact List.mem_cons_of_mem _ (List.mem_cons_of_mem _ h)
    · intro c hc
      rcases List.mem_cons.mp hc with h | h
      · subst h
        exact le_trans (hmin _ (List.mem_cons_self _ _)) (nearestStep_left_le x c a)
      · rcases List.mem_cons.mp h with h2 | h2
        · subst h2
          exact le_trans (hmin _ (List.mem_cons_self _ _)) (nearestStep_right_le x b c)
        · exact hmin c (List.mem_cons_of_mem _ h2)

lemma foldl_nearest_stay (x : ℝ) :
    ∀ (l : List NoteRecord) (b : NoteRecord),
      (∀ c ∈ l, |b.freq - x| ≤ |c.freq - x|) → l.foldl (nearestStep x) b = b := by
  intro l
  induction l with
  | nil => intro b _; rfl
  | cons a l ih =>
    intro b hle
    rw [List.foldl_cons]
    have hba : nearestStep x b a = b := by
      unfold nearestStep
      rw [if_neg (not_lt.mpr (hle a (List.mem_cons_self a l)))]
    rw [hba]
    exact ih b (fun c hc => hle c (List.mem_cons_of_mem a hc))

lemma foldl_nearest_first (x : ℝ) :
    ∀ (l : List NoteRecord) (b : NoteRecord),
      ∃ j, ∃ hj : j < (b :: l).length,
        (b :: l)[j] = l.foldl (nearestStep x) b ∧
          ∀ c ∈ (b :: l).take j,
            |(l.foldl (nearestStep x) b).freq - x| < |c.freq - x| := by
  intro l
  induction l with
  | nil =>
    intro b
    exact ⟨0, by simp, rfl, by simp⟩
  | cons a t ih =>
    intro b
    by_cases hba : |a.freq - x| < |b.freq - x|
    · have hstep : nearestStep x b a = a := by
        unfold nearestStep
        rw [if_pos hba]
      rw [List.foldl_cons, hstep]
      rcases ih a with ⟨j, hj, hget, hfirst⟩
      have hj2 : j + 1 < (b :: a :: t).length := by
        simp only [List.length_cons] at hj ⊢
        omega
      refine ⟨j + 1, hj2, ?_, ?_⟩
      · rw [List.getElem_cons_succ]
        exact hget
      · intro c hc
        rw [List.take_succ_cons] at hc
        rcases List.mem_cons.mp hc with rfl | hc2
        · exact lt_of_le_of_lt
            ((foldl_nearest x t a).2 a (List.mem_cons_self a t)) hba
        · exact hfirst c hc2
    · have hstep : nearestStep x b a = b := by
        unfold nearestStep
        rw [if_neg hba]
      rw [List.foldl_cons, hstep]
      rcases ih b with ⟨j, hj, hget, hfirst⟩
      rcases j with _ | k
      · refine ⟨0, by simp, ?_, by simp⟩
        exact hget
      · rw [List.getElem_cons_succ] at hget
        have hj2 : k + 2 < (b :: a :: t).length := by
          simp only [List.length_cons] at hj ⊢
          omega
        have hbfar : |(t.foldl (nearestStep x) b).freq - x| < |b.freq - x| := by
          apply hfirst
          rw [List.take_succ_cons]
          exact List.mem_cons_self b _
        refine ⟨k + 2, hj2, ?_, ?_⟩
        · rw [List.getElem_cons_succ, List.getElem_cons_succ]
          exact hget
        · intro c hc
          rw [List.take_succ_cons, List.take_succ_cons] at hc
          rcases List.mem_cons.mp hc with rfl | hc2
          · exact hbfar
          rcases List.mem_cons.mp hc2 with rfl | hc3
          · exact lt_of_lt_of_le hbfar (le_of_not_lt hba)
          · apply hfirst
            rw [List.take_succ_cons]
            exact List.mem_cons_of_mem b hc3

lemma noteAt_mem_take {i j : ℕ} (hij : i < j) (hj : j < 88) :
    noteAt i ∈ getNotesInfo.take j := by
  have hi : i < 88 := lt_trans hij hj
  have hl : i < getNotesInfo.length := by rw [table_len]; exact hi
  have hlt : i < (getNotesInfo.take j).length := by
    rw [List.length_take, table_len]
    omega
  have hq : (getNotesInfo.take j)[i]? = getNotesInfo[i]? :=
    List.getElem?_take_of_lt hij
  rw [List.getElem?_eq_getElem hlt, List.getElem?_eq_getElem hl] at hq
  have h3 : (getNotesInfo.take j)[i] = noteAt i := by
    rw [Option.some_inj.mp hq, noteAt_def i hl]
  rw [← h3]
  exact List.getElem_mem _

/-- The `reduce` of `buildFromFrequency` returns the FIRST entry achieving
the minimal distance: its index `j` identifies it as `noteAt j`, and every
entry at a smaller index (i.e. smaller key number) is strictly farther from
the input — so exact ties are resolved to the lowest key number. -/
lemma buildFromFrequency_first_min (f : ℝ) :
    ∃ j, j < 88 ∧
      tableTail.foldl (nearestStep f) (noteAt 0) = noteAt j ∧
        ∀ i, i < j → |(noteAt j).freq - f| < |(noteAt i).freq - f| := by
  rcases foldl_nearest_first f tableTail (noteAt 0) with ⟨j, hj, hget, hfirst⟩
  have hj88 : j < 88 := by
    have h := hj
    simp only [List.length_cons] at h
    have ht : tableTail.length = 87 := rfl
    omega
  have hjl : j < getNotesInfo.length := by rw [table_len]; exact hj88
  have hfold : tableTail.foldl (nearestStep f) (noteAt 0) = noteAt j := by
    rw [noteAt_def j hjl]
    exact hget.symm
  refine ⟨j, hj88, hfold, ?_⟩
  intro i hij
  rw [← hfold]
  exact hfirst (noteAt i) (noteAt_mem_take hij hj88)

lemma buildFromFrequency_unfold (x rand : ℝ) (c : Option AC) :
    buildFromFrequency x rand c =
      if x < (noteAt 0).freq ∨ (noteAt 87).freq < x then none
      else buildFromName ((tableTail.foldl (nearestStep x) (noteAt 0)).name)
        rand c := rfl

lemma dist441_at48 : |(noteAt 48).freq - 441| ≤ 1.01 := by
  have h := fA4_bounds
  rw [abs_le]
  constructor <;> nlinarith [h.1, h.2]

lemma noteAt47_freq : (noteAt 47).freq = FREQ0 * 16 := by
  rw [noteAt_freq 47 (by norm_num), show (47:ℕ) + 1 = 48 from rfl,
    semitone_pow_48]

lemma noteAt49_freq : (noteAt 49).freq = FREQ0 * (16 * semitone ^ 2) := by
  rw [noteAt_freq 49 (by norm_num), show (49:ℕ) + 1 = 50 from rfl]
  have h : semitone ^ 50 = (semitone ^ 12) ^ 4 * semitone ^ 2 := by
    rw [← pow_mul, ← pow_add]
  rw [h, semitone_pow_twelve]
  norm_num

lemma semitone_sq_lb : (1.059462:ℝ) ^ 2 ≤ semitone ^ 2 :=
  pow_le_pow_left₀ (by norm_num) (le_of_lt semitone_lb) 2

lemma semitone_sq_ub : semitone ^ 2 ≤ (1.059465:ℝ) ^ 2 :=
  pow_le_pow_left₀ (le_of_lt semitone_pos) (le_of_lt semitone_ub) 2

lemma dist441_other (i : ℕ) (hi : i < 88) (hne : i ≠ 48) :
    25 ≤ |(noteAt i).freq - 441| := by
  rcases lt_or_gt_of_ne hne with h | h
  · have hle : (noteAt i).freq ≤ (noteAt 47).freq :=
      noteAt_freq_mono (by omega) (by norm_num)
    rw [noteAt47_freq] at hle
    have h416 : (noteAt i).freq ≤ 416 := by unfold FREQ0 at hle; nlinarith
    rw [abs_sub_comm, abs_of_nonneg (by linarith)]
    linarith
  · have hge : (noteAt 49).freq ≤ (noteAt i).freq :=
      noteAt_freq_mono (by omega) hi
    rw [noteAt49_freq] at hge
    have h466 : (466:ℝ) ≤ (noteAt i).freq := by
      unfold FREQ0 at hge
      nlinarith [semitone_sq_lb, hge]
    rw [abs_of_nonneg (by linarith)]
    linarith

lemma nearest441 :
    tableTail.foldl (nearestStep 441) (noteAt 0) = noteAt 48 := by
  rcases foldl_nearest 441 tableTail (noteAt 0) with ⟨hmem, hmin⟩
  rw [← table_cons] at hmem hmin
  have hrle : |(tableTail.foldl (nearestStep 441) (noteAt 0)).freq - 441| ≤ 1.01 :=
    le_trans (hmin _ (noteAt_mem 48 (by norm_num))) dist441_at48
  rcases mem_table hmem with ⟨i, hi, heq⟩
  by_cases h : i = 48
  · rw [heq, h]
  · exfalso
    have hfar := dist441_other i hi h
    rw [heq] at hrle
    linarith

lemma range441 : ¬((441:ℝ) < (noteAt 0).freq ∨ (noteAt 87).freq < 441) := by
  rintro (h | h)
  · nlinarith [fA0_bounds.2]
  · nlinarith [fC8_bounds.1]

/-- C4 counterexample: 28 Hz lies within the table's frequency range, yet
`buildFromFrequency(28)` returns the null sentinel instead of a non-null
player: the nearest entry is "A0" and the delegated `buildFromName` rejects
octave digit 0. -/
theorem C4_counterexample :
    ((noteAt 0).freq ≤ 28 ∧ (28:ℝ) ≤ (noteAt 87).freq) ∧
      buildFromFrequency 28 0 none = none := by
  have hstay : tableTail.foldl (nearestStep 28) (noteAt 0) = noteAt 0 := by
    apply foldl_nearest_stay
    intro c hc
    have hcm : c ∈ getNotesInfo := List.mem_of_mem_tail hc
    rcases mem_table hcm with ⟨i, hi, rfl⟩
    rcases Nat.eq_zero_or_pos i with h0 | h0
    · subst h0; exact le_refl _
    · have hge : (noteAt 1).freq ≤ (noteAt i).freq := noteAt_freq_mono h0 hi
      have h1f : (noteAt 1).freq = FREQ0 * semitone ^ 2 :=
        noteAt_freq 1 (by norm_num)
      rw [h1f] at hge
      have h29 : (29.1:ℝ) ≤ (noteAt i).freq := by
        unfold FREQ0 at hge
        nlinarith [semitone_sq_lb]
      have hb := fA0_bounds
      rw [abs_of_nonpos (by nlinarith [hb.2]), abs_of_nonneg (by nlinarith)]
      nlinarith [hb.1]
  refine ⟨⟨by nlinarith [fA0_bounds.2], by nlinarith [fC8_bounds.1]⟩, ?_⟩
  have hrange : ¬((28:ℝ) < (noteAt 0).freq ∨ (noteAt 87).freq < 28) := by
    rintro (h | h)
    · nlinarith [fA0_bounds.2]
    · nlinarith [fC8_bounds.1]
  rw [buildFromFrequency_unfold, if_neg hrange, hstay,
    show (noteAt 0).name = "A0" from rfl]
  rfl

/-- C4 (amended): `buildFromFrequency` returns the null sentinel when the
input is below the lowest or above the highest table frequency; otherwise
it delegates to `buildFromName` on the name of the FIRST table entry (the
one with the lowest key number, `keynb = j + 1` at index `j`) achieving
the minimum absolute frequency difference — every entry with a smaller key
number is strictly farther, so exact ties resolve to the lowest key
number. The delegated result is non-null only when that name survives the
octave check — in particular `buildFromFrequency(441)` resolves to "A4"
(non-null) and `buildFromFrequency(1)` returns the null sentinel. -/
theorem C4_buildFromFrequency (f r : ℝ) (c : Option AC) :
    ((f < (noteAt 0).freq ∨ (noteAt 87).freq < f) →
      buildFromFrequency f r c = none) ∧
    (¬(f < (noteAt 0).freq ∨ (noteAt 87).freq < f) →
      ∃ j, j < 88 ∧ (noteAt j).keynb = j + 1 ∧ noteAt j ∈ getNotesInfo ∧
        (∀ e ∈ getNotesInfo, |(noteAt j).freq - f| ≤ |e.freq - f|) ∧
        (∀ i, i < j → |(noteAt j).freq - f| < |(noteAt i).freq - f|) ∧
        buildFromFrequency f r c = buildFromName (noteAt j).name r c) ∧
    buildFromFrequency 1 r c = none ∧
    buildFromFrequency 441 r c = buildFromName "A4" r c ∧
    (buildFromName "A4" r c).isSome = true := by
  refine ⟨?_, ?_, ?_, ?_, rfl⟩
  · intro h
    rw [buildFromFrequency_unfold, if_pos h]
  · intro h
    rcases buildFromFrequency_first_min f with ⟨j, hj, hfold, hfirst⟩
    rcases foldl_nearest f tableTail (noteAt 0) with ⟨_, hmin⟩
    rw [← table_cons] at hmin
    refine ⟨j, hj, noteAt_keynb j hj, noteAt_mem j hj, ?_, hfirst, ?_⟩
    · intro e he
      rw [← hfold]
      exact hmin e he
    · rw [buildFromFrequency_unfold, if_neg h, hfold]
  · rw [buildFromFrequency_unfold,
      if_pos (Or.inl (by nlinarith [fA0_bounds.1]))]
  · rw [buildFromFrequency_unfold, if_neg range441, nearest441,
      show (noteAt 48).name = "A4" from rfl]

lemma f87_lt_5000 : (noteAt 87).freq < 5000 := by nlinarith [fC8_bounds.2]

/-- Witness for C4: 5000 Hz is above the highest table frequency, so the
out-of-range branch fires. -/
theorem C4_buildFromFrequency_witness :
    buildFromFrequency 5000 0 none = none :=
  (C4_buildFromFrequency 5000 0 none).1 (Or.inr f87_lt_5000)

lemma semitone_cube_lb : (1.059462:ℝ) ^ 3 ≤ semitone ^ 3 :=
  pow_le_pow_left₀ (by norm_num) (le_of_lt semitone_lb) 3

lemma dist29_at1 : |(noteAt 1).freq - 29| ≤ 0.14 := by
  rw [noteAt_freq 1 (by norm_num), show (1:ℕ) + 1 = 2 from rfl]
  unfold FREQ0
  rw [abs_le]
  constructor <;> nlinarith [semitone_sq_lb, semitone_sq_ub]

lemma dist29_other (i : ℕ) (hi : i < 88) (hne : i ≠ 1) :
    1.4 ≤ |(noteAt i).freq - 29| := by
  rcases Nat.lt_or_ge i 1 with h | h
  · have h0 : i = 0 := by omega
    subst h0
    have hb := fA0_bounds
    rw [abs_sub_comm, abs_of_nonneg (by nlinarith [hb.2])]
    nlinarith [hb.2]
  · have h2 : 2 ≤ i := by omega
    have hge : (noteAt 2).freq ≤ (noteAt i).freq := noteAt_freq_mono h2 hi
    have h2f : (noteAt 2).freq = FREQ0 * semitone ^ 3 :=
      noteAt_freq 2 (by norm_num)
    rw [h2f] at hge
    have h30 : (30.5:ℝ) ≤ (noteAt i).freq := by
      unfold FREQ0 at hge
      nlinarith [semitone_cube_lb]
    rw [abs_of_nonneg (by linarith)]
    linarith

lemma nearest29 :
    tableTail.foldl (nearestStep 29) (noteAt 0) = noteAt 1 := by
  rcases foldl_nearest 29 tableTail (noteAt 0) with ⟨hmem, hmin⟩
  rw [← table_cons] at hmem hmin
  have hrle : |(tableTail.foldl (nearestStep 29) (noteAt 0)).freq - 29| ≤ 0.14 :=
    le_trans (hmin _ (noteAt_mem 1 (by norm_num))) dist29_at1
  rcases mem_table hmem with ⟨i, hi, heq⟩
  by_cases h : i = 1
  · rw [heq, h]
  · exfalso
    have hfar := dist29_other i hi h
    rw [heq] at hrle
    linarith

/-- C10 counterexample: the octave-0 entries are NOT reachable through the
frequency path either — 29 Hz is in range and its nearest entry is "A#0"
(key 2), yet `buildFromFrequency(29)` returns the null sentinel because it
delegates to `buildFromName`, which rejects octave digit 0. -/
theorem C10_counterexample :
    ((noteAt 0).freq ≤ 29 ∧ (29:ℝ) ≤ (noteAt 87).freq) ∧
      buildFromFrequency 29 0 none = none := by
  refine ⟨⟨by nlinarith [fA0_bounds.2], by nlinarith [fC8_bounds.1]⟩, ?_⟩
  have hrange : ¬((29:ℝ) < (noteAt 0).freq ∨ (noteAt 87).freq < 29) := by
    rintro (h | h)
    · nlinarith [fA0_bounds.2]
    · nlinarith [fC8_bounds.1]
  rw [buildFromFrequency_unfold, if_neg hrange, nearest29,
    show (noteAt 1).name = "A#0" from rfl]
  rfl
